import Mathlib

/-!
# PowerTraderAI — verification of the paper-trading core

Shallow embedding of the paper-trading ledger (`src/app/pt_paper_trading.py`),
the risk manager (`src/app/pt_risk.py`) and the live monitor
(`src/pt_live_monitor.py`), together with proofs of the specification claims.

Modelling conventions:
* Python `Decimal`/`float` values are modelled as exact rationals (`ℚ`).
* Python `dict`s are modelled as association lists with replace-or-append
  insertion; `uuid` order ids are modelled by a fresh-counter (`next_order_id`).
* Timestamps are omitted: no claim depends on them.
* The random-walk `MarketDataSimulator.get_current_price` is modelled as an
  injected deterministic price feed `String → ℚ` (the spec's Price Feed
  contract); the claims under scrutiny fix the feed.
* Calls to `self.logger.*` that record a rejection reason are modelled by an
  explicit `log : List String` field on the account.
-/

namespace PT

/-- Generic association-list lookup (first matching key), modelling Python
`dict` membership `k in d` / `d[k]`. -/
def alookup {κ α : Type} [DecidableEq κ] (k : κ) : List (κ × α) → Option α
  | [] => none
  | (k', v) :: rest => if k' = k then some v else alookup k rest

/-- Association-list insert: replace the value if the key is present,
append otherwise — the mutation semantics of `d[k] = v`. -/
def ainsert {κ α : Type} [DecidableEq κ] (k : κ) (v : α) : List (κ × α) → List (κ × α)
  | [] => [(k, v)]
  | (k', v') :: rest => if k' = k then (k, v) :: rest else (k', v') :: ainsert k v rest

/-- Association-list erase, modelling `del d[k]`. -/
def aerase {κ α : Type} [DecidableEq κ] (k : κ) : List (κ × α) → List (κ × α)
  | [] => []
  | (k', v') :: rest => if k' = k then rest else (k', v') :: aerase k rest

/-- `OrderType` enum. -/
inductive OrderType : Type
  | market
  | limit
  | stopLoss
  | takeProfit
deriving DecidableEq, Repr

/-- `OrderStatus` enum.  `partialFill` embeds the Python member `PARTIAL`. -/
inductive OrderStatus : Type
  | pending
  | filled
  | cancelled
  | partialFill
  | rejected
deriving DecidableEq, Repr

/-- `OrderSide` enum. -/
inductive OrderSide : Type
  | buy
  | sell
deriving DecidableEq, Repr

/-- `Position` dataclass (timestamps omitted). -/
structure Position : Type where
  symbol : String
  quantity : ℚ
  average_price : ℚ
  current_price : ℚ
  unrealized_pnl : ℚ := 0
  realized_pnl : ℚ := 0
deriving DecidableEq, Repr

/-- `Position.market_value` property. -/
def Position.market_value (p : Position) : ℚ := p.quantity * p.current_price

/-- `Position.cost_basis` property. -/
def Position.cost_basis (p : Position) : ℚ := p.quantity * p.average_price

/-- `Order` dataclass (timestamps omitted; uuid ids modelled as `ℕ`). -/
structure Order : Type where
  order_id : ℕ
  symbol : String := ""
  order_type : OrderType := OrderType.market
  side : OrderSide := OrderSide.buy
  quantity : ℚ := 0
  price : ℚ := 0
  stop_price : Option ℚ := none
  status : OrderStatus := OrderStatus.pending
  filled_quantity : ℚ := 0
  filled_price : ℚ := 0
  commission : ℚ := 0
deriving DecidableEq, Repr

/-- `TradeRecord` dataclass (timestamps and uuid trade ids omitted). -/
structure TradeRecord : Type where
  order_id : ℕ
  symbol : String
  side : OrderSide
  quantity : ℚ
  price : ℚ
  commission : ℚ
  pnl : ℚ
deriving DecidableEq, Repr

/-- The open-position map `self.positions : Dict[str, Position]`. -/
abbrev PositionsMap : Type := List (String × Position)

/-- `PaperTradingAccount._add_position`: volume-weighted averaging into an
existing position, or creation of a new one. -/
def addPosition (ps : PositionsMap) (symbol : String) (quantity price : ℚ) : PositionsMap :=
  match alookup symbol ps with
  | some existing =>
    let total_quantity := existing.quantity + quantity
    let total_cost := existing.quantity * existing.average_price + quantity * price
    ainsert symbol
      { existing with
          quantity := total_quantity
          average_price := total_cost / total_quantity
          current_price := price } ps
  | none =>
    ainsert symbol
      { symbol := symbol
        quantity := quantity
        average_price := price
        current_price := price } ps

/-- `PaperTradingAccount._reduce_position`: returns the updated map and the
realized P&L.  A missing symbol or insufficient quantity leaves the map
unchanged and returns 0; a position reduced to exactly 0 is deleted. -/
def reducePosition (ps : PositionsMap) (symbol : String) (quantity price : ℚ) :
    PositionsMap × ℚ :=
  match alookup symbol ps with
  | none => (ps, 0)
  | some position =>
    if position.quantity < quantity then (ps, 0)
    else
      let pnl := (price - position.average_price) * quantity
      let newq := position.quantity - quantity
      if newq = 0 then (aerase symbol ps, pnl)
      else
        (ainsert symbol
          { position with quantity := newq, realized_pnl := position.realized_pnl + pnl } ps,
         pnl)

/-- Folding a sequence of buy fills `(quantity, price)` for one symbol through
`_add_position`, as produced by consecutive executed buy orders. -/
def applyBuys (symbol : String) (ps : PositionsMap) (fills : List (ℚ × ℚ)) : PositionsMap :=
  fills.foldl (fun m f => addPosition m symbol f.1 f.2) ps

/-- Total bought quantity of a list of fills. -/
def buysQty (fills : List (ℚ × ℚ)) : ℚ := (fills.map Prod.fst).sum

/-- Total cost (quantity × price summed) of a list of fills. -/
def buysCost (fills : List (ℚ × ℚ)) : ℚ := (fills.map (fun f => f.1 * f.2)).sum

/-- Volume-weighted average price of a list of fills. -/
def vwap (fills : List (ℚ × ℚ)) : ℚ := buysCost fills / buysQty fills

/-- `RiskLimits` dataclass with its source defaults. -/
structure RiskLimits : Type where
  max_daily_loss : ℚ := 2/100
  max_weekly_loss : ℚ := 5/100
  max_monthly_loss : ℚ := 10/100
  max_annual_loss : ℚ := 20/100
  max_position_size : ℚ := 10/100
  max_sector_exposure : ℚ := 25/100
  max_correlation_exposure : ℚ := 15/100
  max_strategy_allocation : ℚ := 30/100
  min_strategy_performance : ℚ := -(5/100)
  max_consecutive_losses : ℕ := 5
  max_volatility_threshold : ℚ := 40/100
  max_leverage : ℚ := 2
deriving DecidableEq, Repr

/-- `RiskManager.calculate_position_size`: the minimum of the per-trade risk
budget, the position-size ceiling and the daily-loss budget. -/
def calculate_position_size (limits : RiskLimits) (account_value risk_per_trade : ℚ) : ℚ :=
  let max_risk_amount := account_value * risk_per_trade
  let max_position := account_value * limits.max_position_size
  let daily_loss_budget := account_value * limits.max_daily_loss
  min (min max_risk_amount max_position) daily_loss_budget

/-- Observable state of `RiskManager` for the emergency-stop cascade.  The
`*_runs` counters instrument how often each cascade stub
(`_halt_all_strategies`, …, `_send_emergency_notifications`) is invoked, and
`snapshot_files` counts successful forensic snapshot file writes inside
`_save_emergency_snapshot`. -/
structure RMState : Type where
  emergency_stop_triggered : Bool := false
  is_trading_halted : Bool := false
  halt_strategies_runs : ℕ := 0
  cancel_orders_runs : ℕ := 0
  close_positions_runs : ℕ := 0
  disconnect_apis_runs : ℕ := 0
  snapshot_runs : ℕ := 0
  snapshot_files : ℕ := 0
  notify_runs : ℕ := 0
  cascade_runs : ℕ := 0
deriving DecidableEq, Repr

/-- Exception behaviour of the cascade's collaborators: whether each step
raises when invoked.  `snapshot_write_fails` models a failing file write,
which `_save_emergency_snapshot` catches internally (its `try`/`except`),
so it does not abort the cascade. -/
structure CascadeFaults : Type where
  halt_raises : Bool := false
  cancel_raises : Bool := false
  close_raises : Bool := false
  disconnect_raises : Bool := false
  snapshot_raises : Bool := false
  snapshot_write_fails : Bool := false
deriving DecidableEq, Repr

/-- `RiskManager.emergency_stop`.  The early return on an already-set flag,
the unconditional setting of both flags, and the single `try`/`except` around
the whole six-step cascade (a raising step aborts the remaining steps; the
exception is caught and logged) are modelled exactly. -/
def emergencyStop (f : CascadeFaults) (s : RMState) : RMState :=
  if s.emergency_stop_triggered then s
  else
    let s0 := { s with
                  emergency_stop_triggered := true
                  is_trading_halted := true
                  cascade_runs := s.cascade_runs + 1 }
    let s1 := { s0 with halt_strategies_runs := s0.halt_strategies_runs + 1 }
    if f.halt_raises then s1
    else
      let s2 := { s1 with cancel_orders_runs := s1.cancel_orders_runs + 1 }
      if f.cancel_raises then s2
      else
        let s3 := { s2 with close_positions_runs := s2.close_positions_runs + 1 }
        if f.close_raises then s3
        else
          let s4 := { s3 with disconnect_apis_runs := s3.disconnect_apis_runs + 1 }
          if f.disconnect_raises then s4
          else
            let s5 := { s4 with snapshot_runs := s4.snapshot_runs + 1 }
            if f.snapshot_raises then s5
            else
              let s6 := if f.snapshot_write_fails then s5
                        else { s5 with snapshot_files := s5.snapshot_files + 1 }
              { s6 with notify_runs := s6.notify_runs + 1 }

/-- The order book `self.orders : Dict[str, Order]`; uuid keys are modelled
as naturals issued by `next_order_id`. -/
abbrev OrdersMap : Type := List (ℕ × Order)

/-- The spec's Price Feed contract `get_current_price(symbol) → price`.  The
source's `MarketDataSimulator` random walk is an implementation of it; the
claims under proof fix a deterministic feed. -/
abbrev PriceFeed : Type := String → ℚ

/-- `PaperTradingAccount` state.  Timestamps, logger names and the account
uuid are omitted; `log` records the reason strings the source passes to
`self.logger` on order rejection/placement/cancellation. -/
structure Account : Type where
  initial_balance : ℚ
  cash_balance : ℚ
  commission_rate : ℚ
  positions : PositionsMap := []
  orders : OrdersMap := []
  next_order_id : ℕ := 0
  trade_history : List TradeRecord := []
  total_trades : ℕ := 0
  winning_trades : ℕ := 0
  total_commission_paid : ℚ := 0
  max_drawdown : ℚ := 0
  peak_value : ℚ
  log : List String := []
deriving DecidableEq

/-- `PaperTradingAccount.__init__`. -/
def initialAccount (initial_balance commission_rate : ℚ) : Account :=
  { initial_balance := initial_balance
    cash_balance := initial_balance
    commission_rate := commission_rate
    peak_value := initial_balance }

/-- `sum(pos.market_value for pos in self.positions.values())`. -/
def positionsValue (ps : PositionsMap) : ℚ := (ps.map (fun e => e.2.market_value)).sum

/-- `PaperTradingAccount.total_portfolio_value`. -/
def totalPortfolioValue (a : Account) : ℚ := a.cash_balance + positionsValue a.positions

/-- `PaperTradingAccount.unrealized_pnl`. -/
def unrealizedPnl (a : Account) : ℚ := (a.positions.map (fun e => e.2.unrealized_pnl)).sum

/-- `PaperTradingAccount.realized_pnl`. -/
def realizedPnl (a : Account) : ℚ := (a.trade_history.map TradeRecord.pnl).sum

/-- `PaperTradingAccount.update_market_prices`: refresh each position's mark
price and unrealized P&L, then maintain the peak-value/drawdown tracker. -/
def updateMarketPrices (price : PriceFeed) (a : Account) : Account :=
  let ps := a.positions.map (fun e =>
    (e.1, { e.2 with
              current_price := price e.1
              unrealized_pnl := (price e.1 - e.2.average_price) * e.2.quantity }))
  let a1 := { a with positions := ps }
  let current_value := totalPortfolioValue a1
  if current_value > a1.peak_value then { a1 with peak_value := current_value }
  else
    let drawdown := (a1.peak_value - current_value) / a1.peak_value
    if drawdown > a1.max_drawdown then { a1 with max_drawdown := drawdown } else a1

/-- The `Order` built at the top of `place_order` (uuid replaced by the fresh
counter value; `price or Decimal(0)` becomes `limit_price.getD 0`). -/
def newOrder (a : Account) (symbol : String) (order_type : OrderType) (side : OrderSide)
    (quantity : ℚ) (limit_price : Option ℚ) : Order :=
  { order_id := a.next_order_id
    symbol := symbol
    order_type := order_type
    side := side
    quantity := quantity
    price := limit_price.getD 0 }

/-- `PaperTradingAccount._validate_order_risk`: order notional against
`max(2%, 10%)` of the current portfolio value.  The arithmetic is total, so
the source's `except`-returns-`False` path is unreachable here. -/
def validateOrderRisk (price : PriceFeed) (a : Account) (o : Order) : Bool :=
  let current_value := totalPortfolioValue a
  let order_value := o.quantity * price o.symbol
  let max_position_value := current_value * (2/100)
  let max_portfolio_percent := current_value * (10/100)
  decide (order_value ≤ max max_position_value max_portfolio_percent)

/-- `PaperTradingAccount._estimate_order_cost`. -/
def estimateOrderCost (price : PriceFeed) (a : Account) (o : Order) : ℚ :=
  if o.side = OrderSide.buy then
    let current_price := if o.order_type = OrderType.market then price o.symbol else o.price
    let gross := o.quantity * current_price
    gross + gross * a.commission_rate
  else 0

/-- `symbol not in self.positions or self.positions[symbol].quantity < quantity`. -/
def insufficientPosition (a : Account) (symbol : String) (quantity : ℚ) : Bool :=
  match alookup symbol a.positions with
  | none => true
  | some p => decide (p.quantity < quantity)

/-- Recording a rejected order together with its logged reason. -/
def rejectWith (a : Account) (o : Order) (reason : String) : Account :=
  { a with
      orders := ainsert a.next_order_id { o with status := OrderStatus.rejected } a.orders
      next_order_id := a.next_order_id + 1
      log := a.log ++ [reason] }

/-- The winning-trade check at the end of `_execute_order` for sells:
`last_trade = self.trade_history[-1] if self.trade_history else None`, and
the win counter increments when `last_trade.pnl > 0`. -/
def winBump (a : Account) : Account :=
  match a.trade_history.getLast? with
  | some t => if 0 < t.pnl then { a with winning_trades := a.winning_trades + 1 } else a
  | none => a

/-- `PaperTradingAccount._execute_order`. -/
def executeOrder (price : PriceFeed) (a : Account) (order_id : ℕ) : Account :=
  match alookup order_id a.orders with
  | none => a
  | some o =>
    if o.status ≠ OrderStatus.pending then a
    else
      let execution_price := if o.order_type = OrderType.market then price o.symbol else o.price
      let gross_amount := o.quantity * execution_price
      let commission := gross_amount * a.commission_rate
      let o' := { o with
                    filled_quantity := o.quantity
                    filled_price := execution_price
                    commission := commission
                    status := OrderStatus.filled }
      let a1 := { a with orders := ainsert order_id o' a.orders }
      let a2 :=
        if o.side = OrderSide.buy then
          { a1 with
              positions := addPosition a1.positions o.symbol o.quantity execution_price
              cash_balance := a1.cash_balance - (gross_amount + commission) }
        else
          let rp := reducePosition a1.positions o.symbol o.quantity execution_price
          { a1 with
              positions := rp.1
              cash_balance := a1.cash_balance + (gross_amount - commission)
              trade_history := a1.trade_history ++
                [{ order_id := order_id
                   symbol := o.symbol
                   side := o.side
                   quantity := o.quantity
                   price := execution_price
                   commission := commission
                   pnl := rp.2 }] }
      let a3 := { a2 with
                    total_commission_paid := a2.total_commission_paid + commission
                    total_trades := a2.total_trades + 1 }
      if o.side = OrderSide.sell then winBump a3 else a3

/-- `PaperTradingAccount.place_order` for already-validated inputs (symbol
and quantity validation raises upstream; see `ledgerStep`).  Returns the
mutated account and the fresh order id. -/
def placeOrder (price : PriceFeed) (a : Account) (symbol : String) (order_type : OrderType)
    (side : OrderSide) (quantity : ℚ) (limit_price : Option ℚ) : Account × ℕ :=
  let o := newOrder a symbol order_type side quantity limit_price
  let oid := a.next_order_id
  if validateOrderRisk price a o = false then
    (rejectWith a o "Order rejected due to risk limits", oid)
  else if side = OrderSide.buy ∧ a.cash_balance < estimateOrderCost price a o then
    (rejectWith a o "Order rejected - insufficient funds", oid)
  else if side = OrderSide.sell ∧ insufficientPosition a symbol quantity = true then
    (rejectWith a o "Order rejected - insufficient position", oid)
  else
    let a1 := { a with
                  orders := ainsert oid o a.orders
                  next_order_id := oid + 1
                  log := a.log ++ ["Order placed"] }
    if order_type = OrderType.market then (executeOrder price a1 oid, oid) else (a1, oid)

/-- `PaperTradingAccount.cancel_order`. -/
def cancelOrder (a : Account) (order_id : ℕ) : Account × Bool :=
  match alookup order_id a.orders with
  | none => (a, false)
  | some o =>
    if o.status = OrderStatus.pending then
      ({ a with
           orders := ainsert order_id { o with status := OrderStatus.cancelled } a.orders
           log := a.log ++ ["Order cancelled"] }, true)
    else (a, false)

/-- `PaperTradingAccount.get_order_status`. -/
def getOrderStatus (a : Account) (order_id : ℕ) : Option OrderStatus :=
  (alookup order_id a.orders).map Order.status

/-- Per-position entry of the summary's `positions` mapping. -/
structure PositionReport : Type where
  quantity : ℚ
  avg_price : ℚ
  current_price : ℚ
  market_value : ℚ
  unrealized_pnl : ℚ
  unrealized_pnl_pct : ℚ
deriving DecidableEq, Repr

/-- The summary entry built for one position, including the
`if pos.cost_basis > 0 else 0` guard on the percentage. -/
def mkPositionReport (p : Position) : PositionReport :=
  { quantity := p.quantity
    avg_price := p.average_price
    current_price := p.current_price
    market_value := p.market_value
    unrealized_pnl := p.unrealized_pnl
    unrealized_pnl_pct :=
      if 0 < p.cost_basis then p.unrealized_pnl / p.cost_basis * 100 else 0 }

/-- The dictionary returned by `get_account_summary` (`recent_orders`, a
timestamp-sorted listing, is omitted: no claim concerns it). -/
structure AccountSummary : Type where
  cash_balance : ℚ
  positions_value : ℚ
  total_value : ℚ
  unrealized_pnl : ℚ
  realized_pnl : ℚ
  total_pnl : ℚ
  total_return_pct : ℚ
  total_trades : ℕ
  winning_trades : ℕ
  win_rate_pct : ℚ
  total_commission : ℚ
  max_drawdown_pct : ℚ
  positions : List (String × PositionReport)
deriving DecidableEq

/-- `PaperTradingAccount.get_account_summary`: refreshes market prices first,
then reports the portfolio rollup.  The win rate divides by
`max(total_trades, 1)`. -/
def getAccountSummary (price : PriceFeed) (a : Account) : AccountSummary :=
  let acct := updateMarketPrices price a
  { cash_balance := acct.cash_balance
    positions_value := positionsValue acct.positions
    total_value := totalPortfolioValue acct
    unrealized_pnl := unrealizedPnl acct
    realized_pnl := realizedPnl acct
    total_pnl := realizedPnl acct + unrealizedPnl acct
    total_return_pct :=
      (totalPortfolioValue acct - acct.initial_balance) / acct.initial_balance * 100
    total_trades := acct.total_trades
    winning_trades := acct.winning_trades
    win_rate_pct := ((acct.winning_trades : ℚ) / ((max acct.total_trades 1 : ℕ) : ℚ)) * 100
    total_commission := acct.total_commission_paid
    max_drawdown_pct := acct.max_drawdown * 100
    positions := acct.positions.map (fun e => (e.1, mkPositionReport e.2)) }

/-- The claim's fixed price feed: 45000 for BTC (the simulator's base price,
with the random walk disabled as the scenario requires). -/
def btcFeed : PriceFeed := fun s => if s = "BTC" then 45000 else 100

/-- `InputValidator.MAX_VOLUME` (`pt_validation.py`). -/
def MAX_VOLUME : ℚ := 1000000000

/-- The public ledger operations a caller can drive the account with.  Each
operation carries the price feed the simulator answers with during that
call. -/
inductive LedgerOp : Type
  | placeOp (price : PriceFeed) (symbol : String) (order_type : OrderType)
      (side : OrderSide) (quantity : ℚ) (limit_price : Option ℚ)
  | cancelOp (order_id : ℕ)
  | updateOp (price : PriceFeed)

/-- One public ledger call.  `InputValidator.validate_volume` raises
`ValidationError` for a negative or over-large quantity, in which case the
exception propagates to the caller and the ledger is unchanged.  (An invalid
symbol raises the same way, also leaving the ledger unchanged; symbols are
not otherwise constrained here.) -/
def ledgerStep (a : Account) : LedgerOp → Account
  | .placeOp price symbol order_type side quantity limit_price =>
    if quantity < 0 ∨ MAX_VOLUME < quantity then a
    else (placeOrder price a symbol order_type side quantity limit_price).1
  | .cancelOp order_id => (cancelOrder a order_id).1
  | .updateOp price => updateMarketPrices price a

/-- Well-formedness of the order book: stored ids are below the fresh
counter, and every order satisfies `0 ≤ quantity` and
`filled_quantity ≤ quantity`. -/
def ordersWF (a : Account) : Prop :=
  ∀ e ∈ a.orders, e.1 < a.next_order_id ∧ 0 ≤ e.2.quantity ∧
    e.2.filled_quantity ≤ e.2.quantity

/-! ## Live monitor alert dispatch (`pt_live_monitor.py`) -/

/-- `Alert` dataclass (`details : Dict[str, Any]` and the timestamp are
omitted; no claim depends on them). -/
structure Alert : Type where
  alert_id : String
  level : String
  component : String
  message : String
  acknowledged : Bool := false
deriving DecidableEq, Repr

/-- Abstract behaviour of one registered alert handler (any callable taking
one Alert): the observable outputs it produces on a given alert, and whether
it raises an exception while handling it. -/
structure HandlerBehaviour : Type where
  outputs : Alert → List String
  raises : Alert → Bool

/-- The custom-handler loop at the end of `LiveMonitor._handle_alert`:
`for handler in self.alert_handlers: try: handler(alert) except: log`.
Returns the concatenated handler outputs and the error-log entries; a raising
handler is caught and logged, and iteration continues with the same alert. -/
def runHandlers (hs : List HandlerBehaviour) (alert : Alert) : List String × List String :=
  match hs with
  | [] => ([], [])
  | h :: rest =>
    let tailres := runHandlers rest alert
    (h.outputs alert ++ tailres.1,
     (if h.raises alert then ["Error in custom alert handler"] else []) ++ tailres.2)

/-- The monitor state relevant to alert dispatch. -/
structure Monitor : Type where
  alert_handlers : List HandlerBehaviour := []

/-- `LiveMonitor.add_alert_handler`: append-only registration. -/
def add_alert_handler (m : Monitor) (h : HandlerBehaviour) : Monitor :=
  { m with alert_handlers := m.alert_handlers ++ [h] }

/-! ## Theorems -/

theorem alookup_ainsert {κ α : Type} [DecidableEq κ] (k : κ) (v : α) (l : List (κ × α)) :
    alookup k (ainsert k v l) = some v := by
  induction l with
  | nil => simp [ainsert, alookup]
  | cons hd tl ih =>
    obtain ⟨k', v'⟩ := hd
    by_cases h : k' = k
    · simp [ainsert, alookup, h]
    · simp [ainsert, alookup, h, ih]

theorem alookup_ainsert_ne {κ α : Type} [DecidableEq κ] {k k' : κ} (v : α) (l : List (κ × α))
    (h : k' ≠ k) : alookup k (ainsert k' v l) = alookup k l := by
  induction l with
  | nil => simp [ainsert, alookup, h]
  | cons hd tl ih =>
    obtain ⟨k'', v''⟩ := hd
    by_cases h' : k'' = k'
    · subst h'
      simp [ainsert, alookup, h]
    · by_cases h'' : k'' = k
      · subst h''
        simp [ainsert, alookup, h', Ne.symm h]
      · simp [ainsert, alookup, h', h'', ih]

/-- Lookup of an absent key is `none`. -/
theorem alookup_eq_none {κ α : Type} [DecidableEq κ] {k : κ} {l : List (κ × α)}
    (h : k ∉ l.map Prod.fst) : alookup k l = none := by
  induction l with
  | nil => simp [alookup]
  | cons hd tl ih =>
    obtain ⟨k', v'⟩ := hd
    simp only [List.map_cons, List.mem_cons] at h
    push_neg at h
    simp only [alookup, if_neg (Ne.symm h.1)]
    exact ih h.2

theorem alookup_aerase_self {κ α : Type} [DecidableEq κ] (k : κ) (l : List (κ × α))
    (hnd : (l.map Prod.fst).Nodup) : alookup k (aerase k l) = none := by
  induction l with
  | nil => simp [aerase, alookup]
  | cons hd tl ih =>
    obtain ⟨k', v'⟩ := hd
    simp only [List.map_cons, List.nodup_cons] at hnd
    by_cases h : k' = k
    · subst h
      simp only [aerase, if_pos rfl]
      exact alookup_eq_none hnd.1
    · simp [aerase, alookup, h, ih hnd.2]

/-- Membership of an entry in the list after an insert: it is the inserted
entry or an untouched old entry with a different key. -/
theorem mem_ainsert {κ α : Type} [DecidableEq κ] (k : κ) (v : α) (l : List (κ × α))
    (e : κ × α) (he : e ∈ ainsert k v l) : e = (k, v) ∨ e ∈ l := by
  induction l with
  | nil =>
    simp only [ainsert, List.mem_singleton] at he
    exact Or.inl he
  | cons hd tl ih =>
    obtain ⟨k', v'⟩ := hd
    by_cases h : k' = k
    · simp only [ainsert, if_pos h, List.mem_cons] at he
      rcases he with he | he
      · exact Or.inl he
      · exact Or.inr (List.mem_cons_of_mem _ he)
    · simp only [ainsert, if_neg h, List.mem_cons] at he
      rcases he with he | he
      · subst he
        exact Or.inr (List.mem_cons_self _ _)
      · rcases ih he with h1 | h1
        · exact Or.inl h1
        · exact Or.inr (List.mem_cons_of_mem _ h1)

theorem mem_aerase {κ α : Type} [DecidableEq κ] (k : κ) (l : List (κ × α))
    (e : κ × α) (he : e ∈ aerase k l) : e ∈ l := by
  induction l with
  | nil => simp [aerase] at he
  | cons hd tl ih =>
    obtain ⟨k', v'⟩ := hd
    by_cases h : k' = k
    · simp only [aerase, if_pos h] at he
      exact List.mem_cons_of_mem _ he
    · simp only [aerase, if_neg h, List.mem_cons] at he
      rcases he with he | he
      · subst he
        exact List.mem_cons_self _ _
      · exact List.mem_cons_of_mem _ (ih he)

theorem buysQty_nonneg (fills : List (ℚ × ℚ)) (h : ∀ f ∈ fills, 0 ≤ f.1) :
    0 ≤ buysQty fills := by
  induction fills with
  | nil => simp [buysQty]
  | cons hd tl ih =>
    simp only [buysQty, List.map_cons, List.sum_cons]
    have h1 : 0 ≤ hd.1 := h hd (List.mem_cons_self _ _)
    have h2 : 0 ≤ buysQty tl := ih fun f hf => h f (List.mem_cons_of_mem _ hf)
    exact add_nonneg h1 h2

/-- Lookup after a buy into an existing position. -/
theorem alookup_addPosition_some (ps : PositionsMap) (symbol : String) (q p : ℚ)
    (ex : Position) (h : alookup symbol ps = some ex) :
    alookup symbol (addPosition ps symbol q p) =
      some { ex with
               quantity := ex.quantity + q
               average_price := (ex.quantity * ex.average_price + q * p) / (ex.quantity + q)
               current_price := p } := by
  simp only [addPosition, h]
  exact alookup_ainsert symbol _ ps

/-- Quantity/cost evolution over a sequence of buys: quantities add up and the
cost basis `quantity × average_price` accumulates each fill's cost exactly. -/
theorem applyBuys_quantity_cost (symbol : String) (fills : List (ℚ × ℚ)) :
    ∀ (ps : PositionsMap) (pos : Position),
      alookup symbol ps = some pos → 0 < pos.quantity → (∀ f ∈ fills, 0 ≤ f.1) →
      ∃ pos', alookup symbol (applyBuys symbol ps fills) = some pos' ∧
        pos'.quantity = pos.quantity + buysQty fills ∧
        pos'.quantity * pos'.average_price =
          pos.quantity * pos.average_price + buysCost fills := by
  induction fills with
  | nil =>
    intro ps pos h hq _
    refine ⟨pos, by simpa [applyBuys] using h, by simp [buysQty], by simp [buysCost]⟩
  | cons hd tl ih =>
    intro ps pos h hq hf
    obtain ⟨q, p⟩ := hd
    have hq0 : (0 : ℚ) ≤ q := hf (q, p) (List.mem_cons_self _ _)
    have hstep := alookup_addPosition_some ps symbol q p pos h
    set pos1 : Position :=
      { pos with
          quantity := pos.quantity + q
          average_price := (pos.quantity * pos.average_price + q * p) / (pos.quantity + q)
          current_price := p } with hpos1
    have hq1 : 0 < pos1.quantity := by
      simp only [hpos1]
      exact add_pos_of_pos_of_nonneg hq hq0
    have htl : ∀ f ∈ tl, (0 : ℚ) ≤ f.1 := fun f hfm => hf f (List.mem_cons_of_mem _ hfm)
    obtain ⟨pos', hlook, hqty, hcost⟩ :=
      ih (addPosition ps symbol q p) pos1 hstep hq1 htl
    have hne : pos.quantity + q ≠ 0 := ne_of_gt (add_pos_of_pos_of_nonneg hq hq0)
    have hcost1 : pos1.quantity * pos1.average_price =
        pos.quantity * pos.average_price + q * p := by
      simp only [hpos1]
      field_simp
    refine ⟨pos', ?_, ?_, ?_⟩
    · simpa [applyBuys] using hlook
    · rw [hqty]
      simp only [hpos1, buysQty, List.map_cons, List.sum_cons]
      ring
    · rw [hcost, hcost1]
      simp only [buysCost, List.map_cons, List.sum_cons]
      ring

/-- **C1.** For executed orders on one symbol: a buy of quantity `q` at price
`p` into an existing position `(Q, A)` yields average `(Q·A + q·p)/(Q+q)` and
quantity `Q+q`; over any nonempty sequence of positive buy fills the resulting
average price is the volume-weighted average of the fills; a sell of `q` at
`p` with `q ≤ Q` realizes `(p − A)·q`, decreases the quantity by `q`, leaves
the average price unchanged, deletes the position exactly when the remaining
quantity is 0, and never drives any position quantity negative. -/
theorem position_averaging_correct :
    (∀ (ps : PositionsMap) (symbol : String) (q p : ℚ) (ex : Position),
        alookup symbol ps = some ex →
        alookup symbol (addPosition ps symbol q p) =
          some { ex with
                   quantity := ex.quantity + q
                   average_price := (ex.quantity * ex.average_price + q * p) / (ex.quantity + q)
                   current_price := p })
    ∧
    (∀ (symbol : String) (fills : List (ℚ × ℚ)),
        fills ≠ [] → (∀ f ∈ fills, 0 < f.1) →
        ∃ pos, alookup symbol (applyBuys symbol [] fills) = some pos ∧
          pos.quantity = buysQty fills ∧ pos.average_price = vwap fills)
    ∧
    (∀ (ps : PositionsMap) (symbol : String) (q p : ℚ) (pos : Position),
        alookup symbol ps = some pos → q ≤ pos.quantity → (ps.map Prod.fst).Nodup →
        (reducePosition ps symbol q p).2 = (p - pos.average_price) * q ∧
        (pos.quantity - q = 0 →
          alookup symbol (reducePosition ps symbol q p).1 = none) ∧
        (pos.quantity - q ≠ 0 →
          ∃ pos', alookup symbol (reducePosition ps symbol q p).1 = some pos' ∧
            pos'.quantity = pos.quantity - q ∧
            pos'.average_price = pos.average_price))
    ∧
    (∀ (ps : PositionsMap) (symbol : String) (q p : ℚ),
        (∀ e ∈ ps, 0 ≤ e.2.quantity) →
        ∀ e ∈ (reducePosition ps symbol q p).1, 0 ≤ e.2.quantity) := by
  refine ⟨alookup_addPosition_some, ?_, ?_, ?_⟩
  · intro symbol fills hne hpos
    match fills with
    | [] => exact absurd rfl hne
    | (q, p) :: tl =>
      have hq : (0 : ℚ) < q := hpos (q, p) (List.mem_cons_self _ _)
      have htl : ∀ f ∈ tl, (0 : ℚ) ≤ f.1 :=
        fun f hf => le_of_lt (hpos f (List.mem_cons_of_mem _ hf))
      have h0 : alookup symbol (addPosition [] symbol q p) =
          some { symbol := symbol, quantity := q, average_price := p, current_price := p,
                 unrealized_pnl := 0, realized_pnl := 0 } := by
        simp [addPosition, alookup, ainsert]
      obtain ⟨pos', hlook, hqty, hcost⟩ :=
        applyBuys_quantity_cost symbol tl (addPosition [] symbol q p) _ h0 hq htl
      have hfold : applyBuys symbol [] ((q, p) :: tl) =
          applyBuys symbol (addPosition [] symbol q p) tl := by
        simp [applyBuys]
      have hqty' : pos'.quantity = buysQty ((q, p) :: tl) := by
        rw [hqty]
        simp [buysQty]
      have hqnz : buysQty ((q, p) :: tl) ≠ 0 := by
        have : 0 < buysQty ((q, p) :: tl) := by
          simp only [buysQty, List.map_cons, List.sum_cons]
          exact add_pos_of_pos_of_nonneg hq (buysQty_nonneg tl htl)
        exact ne_of_gt this
      refine ⟨pos', by rw [hfold]; exact hlook, hqty', ?_⟩
      have hc : buysQty ((q, p) :: tl) * pos'.average_price = buysCost ((q, p) :: tl) := by
        rw [← hqty', hcost]
        simp only [buysCost, List.map_cons, List.sum_cons]
      rw [vwap, eq_div_iff hqnz]
      linarith [hc]
  · intro ps symbol q p pos h hle hnd
    have hnlt : ¬pos.quantity < q := not_lt.mpr hle
    have hred : reducePosition ps symbol q p =
        if pos.quantity - q = 0 then (aerase symbol ps, (p - pos.average_price) * q)
        else (ainsert symbol
                { pos with
                    quantity := pos.quantity - q
                    realized_pnl := pos.realized_pnl + (p - pos.average_price) * q } ps,
              (p - pos.average_price) * q) := by
      simp [reducePosition, h, hnlt]
    by_cases hz : pos.quantity - q = 0
    · rw [hred, if_pos hz]
      exact ⟨rfl, fun _ => alookup_aerase_self symbol ps hnd, fun hnz => absurd hz hnz⟩
    · rw [hred, if_neg hz]
      exact ⟨rfl, fun hz' => absurd hz' hz,
        fun _ => ⟨_, alookup_ainsert symbol _ ps, rfl, rfl⟩⟩
  · intro ps symbol q p hpos e he
    rcases hcase : alookup symbol ps with _ | pos
    · have h1 : (reducePosition ps symbol q p).1 = ps := by
        simp [reducePosition, hcase]
      rw [h1] at he
      exact hpos e he
    · by_cases hlt : pos.quantity < q
      · have h1 : (reducePosition ps symbol q p).1 = ps := by
          simp [reducePosition, hcase, hlt]
        rw [h1] at he
        exact hpos e he
      · by_cases hz : pos.quantity - q = 0
        · have h1 : (reducePosition ps symbol q p).1 = aerase symbol ps := by
            simp [reducePosition, hcase, hlt, hz]
          rw [h1] at he
          exact hpos e (mem_aerase symbol ps e he)
        · have h1 : (reducePosition ps symbol q p).1 =
              ainsert symbol
                { pos with
                    quantity := pos.quantity - q
                    realized_pnl :=
                      pos.realized_pnl + (p - pos.average_price) * q } ps := by
            simp [reducePosition, hcase, hlt, hz]
          rw [h1] at he
          rcases mem_ainsert symbol _ ps e he with he' | he'
          · rw [he']
            have hle : q ≤ pos.quantity := not_lt.mp hlt
            simpa using sub_nonneg.mpr hle
          · exact hpos e he'

/-- Witness for C1: the four conjuncts applied at concrete inputs — a
position of 1 BTC at 100, a buy of 1 at 200, the fill sequence
`[(1, 100), (3, 200)]`, and a partial/total sell. -/
theorem position_averaging_correct_witness :
    (alookup "BTC" (addPosition [("BTC", ⟨"BTC", 1, 100, 100, 0, 0⟩)] "BTC" 1 200) =
      some { (⟨"BTC", 1, 100, 100, 0, 0⟩ : Position) with
               quantity := (1 : ℚ) + 1
               average_price := ((1 : ℚ) * 100 + 1 * 200) / (1 + 1)
               current_price := 200 })
    ∧
    (∃ pos, alookup "BTC" (applyBuys "BTC" [] [(1, 100), (3, 200)]) = some pos ∧
      pos.quantity = buysQty [(1, 100), (3, 200)] ∧
      pos.average_price = vwap [(1, 100), (3, 200)])
    ∧
    ((reducePosition [("BTC", ⟨"BTC", 2, 150, 150, 0, 0⟩)] "BTC" 1 180).2 =
        ((180 : ℚ) - 150) * 1 ∧
      ((2 : ℚ) - 1 = 0 →
        alookup "BTC" (reducePosition [("BTC", ⟨"BTC", 2, 150, 150, 0, 0⟩)] "BTC" 1 180).1 =
          none) ∧
      ((2 : ℚ) - 1 ≠ 0 →
        ∃ pos', alookup "BTC"
            (reducePosition [("BTC", ⟨"BTC", 2, 150, 150, 0, 0⟩)] "BTC" 1 180).1 =
              some pos' ∧
          pos'.quantity = (2 : ℚ) - 1 ∧ pos'.average_price = 150))
    ∧
    (∀ e ∈ (reducePosition [("BTC", ⟨"BTC", 2, 150, 150, 0, 0⟩)] "BTC" 2 90).1,
        0 ≤ e.2.quantity) := by
  refine ⟨?_, ?_, ?_, ?_⟩
  · exact position_averaging_correct.1 [("BTC", ⟨"BTC", 1, 100, 100, 0, 0⟩)] "BTC" 1 200
      ⟨"BTC", 1, 100, 100, 0, 0⟩ (by decide)
  · exact position_averaging_correct.2.1 "BTC" [(1, 100), (3, 200)] (by decide)
      (by decide)
  · exact position_averaging_correct.2.2.1 [("BTC", ⟨"BTC", 2, 150, 150, 0, 0⟩)] "BTC" 1 180
      ⟨"BTC", 2, 150, 150, 0, 0⟩ (by decide) (by norm_num) (by decide)
  · exact position_averaging_correct.2.2.2 [("BTC", ⟨"BTC", 2, 150, 150, 0, 0⟩)] "BTC" 2 90
      (by decide)

/-- A second call on an already-triggered manager is the identity. -/
theorem emergencyStop_of_triggered (f : CascadeFaults) (s : RMState)
    (h : s.emergency_stop_triggered = true) : emergencyStop f s = s := by
  simp [emergencyStop, h]

/-- A call from an untriggered state sets the emergency-stop flag. -/
theorem emergencyStop_sets_flag (f : CascadeFaults) (s : RMState)
    (h : s.emergency_stop_triggered = false) :
    (emergencyStop f s).emergency_stop_triggered = true := by
  obtain ⟨f1, f2, f3, f4, f5, f6⟩ := f
  cases f1 <;> cases f2 <;> cases f3 <;> cases f4 <;> cases f5 <;> cases f6 <;>
    simp [emergencyStop, h]

/-- **C2.** `emergency_stop()` is idempotent: a second call (with any fault
behaviour) returns without performing any cascade step, so two calls from an
untriggered state run the cascade exactly once and — when no step fails —
write exactly one forensic snapshot file. -/
theorem emergency_stop_idempotent :
    (∀ (f g : CascadeFaults) (s : RMState),
        emergencyStop g (emergencyStop f s) = emergencyStop f s)
    ∧
    (∀ (f : CascadeFaults) (s : RMState), s.emergency_stop_triggered = false →
        (emergencyStop f (emergencyStop f s)).cascade_runs = s.cascade_runs + 1 ∧
        (f = {} →
          (emergencyStop f (emergencyStop f s)).snapshot_files = s.snapshot_files + 1)) := by
  have hidem : ∀ (f g : CascadeFaults) (s : RMState),
      emergencyStop g (emergencyStop f s) = emergencyStop f s := by
    intro f g s
    by_cases h : s.emergency_stop_triggered = true
    · rw [emergencyStop_of_triggered f s h]
      exact emergencyStop_of_triggered g s h
    · have h' : s.emergency_stop_triggered = false := by
        simpa using h
      exact emergencyStop_of_triggered g _ (emergencyStop_sets_flag f s h')
  refine ⟨hidem, ?_⟩
  intro f s h
  rw [hidem]
  refine ⟨?_, fun hf => ?_⟩
  · obtain ⟨f1, f2, f3, f4, f5, f6⟩ := f
    cases f1 <;> cases f2 <;> cases f3 <;> cases f4 <;> cases f5 <;> cases f6 <;>
      simp [emergencyStop, h]
  · subst hf
    simp [emergencyStop, h]

/-- Witness for C2 at the default (all-zero, fault-free) state. -/
theorem emergency_stop_idempotent_witness :
    (emergencyStop {} (emergencyStop {} ({} : RMState)) = emergencyStop {} {}) ∧
    ((emergencyStop {} (emergencyStop {} ({} : RMState))).cascade_runs = 0 + 1 ∧
      (({} : CascadeFaults) = {} →
        (emergencyStop {} (emergencyStop {} ({} : RMState))).snapshot_files = 0 + 1)) :=
  ⟨emergency_stop_idempotent.1 {} {} {}, emergency_stop_idempotent.2 {} {} rfl⟩

/-- **C3 (counterexample).** When the first cascade step
(`_halt_all_strategies`) raises, none of the five later steps is attempted —
refuting the claim that every step is attempted after an earlier failure.
(The flags are still set.) -/
theorem cascade_steps_skipped_after_failure :
    (emergencyStop { halt_raises := true } ({} : RMState)).halt_strategies_runs = 1 ∧
    (emergencyStop { halt_raises := true } ({} : RMState)).cancel_orders_runs = 0 ∧
    (emergencyStop { halt_raises := true } ({} : RMState)).close_positions_runs = 0 ∧
    (emergencyStop { halt_raises := true } ({} : RMState)).disconnect_apis_runs = 0 ∧
    (emergencyStop { halt_raises := true } ({} : RMState)).snapshot_runs = 0 ∧
    (emergencyStop { halt_raises := true } ({} : RMState)).notify_runs = 0 ∧
    (emergencyStop { halt_raises := true } ({} : RMState)).emergency_stop_triggered = true := by
  decide

/-- **C3 (amended).** During the cascade a step is attempted exactly when no
earlier step raised (a raising step's exception is caught at the cascade
level and the remaining steps are skipped), and the emergency-stop and
trading-halted flags are set regardless of any failure. -/
theorem cascade_prefix_attempted_flags_set (f : CascadeFaults) (s : RMState)
    (h : s.emergency_stop_triggered = false) :
    (emergencyStop f s).emergency_stop_triggered = true ∧
    (emergencyStop f s).is_trading_halted = true ∧
    (emergencyStop f s).halt_strategies_runs = s.halt_strategies_runs + 1 ∧
    (emergencyStop f s).cancel_orders_runs =
      s.cancel_orders_runs + (if f.halt_raises then 0 else 1) ∧
    (emergencyStop f s).close_positions_runs =
      s.close_positions_runs + (if f.halt_raises || f.cancel_raises then 0 else 1) ∧
    (emergencyStop f s).disconnect_apis_runs =
      s.disconnect_apis_runs +
        (if f.halt_raises || f.cancel_raises || f.close_raises then 0 else 1) ∧
    (emergencyStop f s).snapshot_runs =
      s.snapshot_runs +
        (if f.halt_raises || f.cancel_raises || f.close_raises || f.disconnect_raises
         then 0 else 1) ∧
    (emergencyStop f s).notify_runs =
      s.notify_runs +
        (if f.halt_raises || f.cancel_raises || f.close_raises || f.disconnect_raises
            || f.snapshot_raises
         then 0 else 1) := by
  obtain ⟨f1, f2, f3, f4, f5, f6⟩ := f
  cases f1 <;> cases f2 <;> cases f3 <;> cases f4 <;> cases f5 <;> cases f6 <;>
    simp [emergencyStop, h]

/-- Witness for the amended C3: third step raising skips the later steps,
flags still set. -/
theorem cascade_prefix_attempted_flags_set_witness :
    (emergencyStop { close_raises := true } ({} : RMState)).emergency_stop_triggered = true ∧
    (emergencyStop { close_raises := true } ({} : RMState)).is_trading_halted = true ∧
    (emergencyStop { close_raises := true } ({} : RMState)).halt_strategies_runs = 0 + 1 ∧
    (emergencyStop { close_raises := true } ({} : RMState)).cancel_orders_runs =
      0 + (if ({ close_raises := true } : CascadeFaults).halt_raises then 0 else 1) ∧
    (emergencyStop { close_raises := true } ({} : RMState)).close_positions_runs =
      0 + (if ({ close_raises := true } : CascadeFaults).halt_raises
              || ({ close_raises := true } : CascadeFaults).cancel_raises then 0 else 1) ∧
    (emergencyStop { close_raises := true } ({} : RMState)).disconnect_apis_runs =
      0 + (if ({ close_raises := true } : CascadeFaults).halt_raises
              || ({ close_raises := true } : CascadeFaults).cancel_raises
              || ({ close_raises := true } : CascadeFaults).close_raises then 0 else 1) ∧
    (emergencyStop { close_raises := true } ({} : RMState)).snapshot_runs =
      0 + (if ({ close_raises := true } : CascadeFaults).halt_raises
              || ({ close_raises := true } : CascadeFaults).cancel_raises
              || ({ close_raises := true } : CascadeFaults).close_raises
              || ({ close_raises := true } : CascadeFaults).disconnect_raises
           then 0 else 1) ∧
    (emergencyStop { close_raises := true } ({} : RMState)).notify_runs =
      0 + (if ({ close_raises := true } : CascadeFaults).halt_raises
              || ({ close_raises := true } : CascadeFaults).cancel_raises
              || ({ close_raises := true } : CascadeFaults).close_raises
              || ({ close_raises := true } : CascadeFaults).disconnect_raises
              || ({ close_raises := true } : CascadeFaults).snapshot_raises
           then 0 else 1) :=
  cascade_prefix_attempted_flags_set { close_raises := true } {} rfl

/-- **C4.** For every `account_value ≥ 0` and fraction,
`calculate_position_size` is the minimum of the risk budget, the
position-size ceiling and the daily-loss budget: it is bounded by each of the
three and attains one of them. -/
theorem calculate_position_size_is_min (limits : RiskLimits)
    (account_value risk_per_trade : ℚ) (_h : 0 ≤ account_value) :
    calculate_position_size limits account_value risk_per_trade =
      min (account_value * risk_per_trade)
        (min (account_value * limits.max_position_size)
          (account_value * limits.max_daily_loss)) ∧
    calculate_position_size limits account_value risk_per_trade ≤
      account_value * risk_per_trade ∧
    calculate_position_size limits account_value risk_per_trade ≤
      account_value * limits.max_position_size ∧
    calculate_position_size limits account_value risk_per_trade ≤
      account_value * limits.max_daily_loss ∧
    (calculate_position_size limits account_value risk_per_trade =
        account_value * risk_per_trade ∨
      calculate_position_size limits account_value risk_per_trade =
        account_value * limits.max_position_size ∨
      calculate_position_size limits account_value risk_per_trade =
        account_value * limits.max_daily_loss) := by
  refine ⟨?_, ?_, ?_, ?_, ?_⟩
  · rw [calculate_position_size, min_assoc]
  · exact le_trans (min_le_left _ _) (min_le_left _ _)
  · exact le_trans (min_le_left _ _) (min_le_right _ _)
  · exact min_le_right _ _
  · rcases min_cases (min (account_value * risk_per_trade)
        (account_value * limits.max_position_size))
        (account_value * limits.max_daily_loss) with ⟨heq, _⟩ | ⟨heq, _⟩
    · rcases min_cases (account_value * risk_per_trade)
          (account_value * limits.max_position_size) with ⟨heq2, _⟩ | ⟨heq2, _⟩
      · exact Or.inl (by rw [calculate_position_size]; rw [heq, heq2])
      · exact Or.inr (Or.inl (by rw [calculate_position_size]; rw [heq, heq2]))
    · exact Or.inr (Or.inr (by rw [calculate_position_size]; rw [heq]))

/-- Witness for C4 with the source default limits, a 100000 account and a 1%
risk fraction: the risk budget (1000) is the tightest constraint. -/
theorem calculate_position_size_is_min_witness :
    calculate_position_size {} 100000 (1/100) =
      min ((100000 : ℚ) * (1/100))
        (min ((100000 : ℚ) * ({} : RiskLimits).max_position_size)
          ((100000 : ℚ) * ({} : RiskLimits).max_daily_loss)) ∧
    calculate_position_size {} 100000 (1/100) ≤ (100000 : ℚ) * (1/100) ∧
    calculate_position_size {} 100000 (1/100) ≤
      (100000 : ℚ) * ({} : RiskLimits).max_position_size ∧
    calculate_position_size {} 100000 (1/100) ≤
      (100000 : ℚ) * ({} : RiskLimits).max_daily_loss ∧
    (calculate_position_size {} 100000 (1/100) = (100000 : ℚ) * (1/100) ∨
      calculate_position_size {} 100000 (1/100) =
        (100000 : ℚ) * ({} : RiskLimits).max_position_size ∨
      calculate_position_size {} 100000 (1/100) =
        (100000 : ℚ) * ({} : RiskLimits).max_daily_loss) :=
  calculate_position_size_is_min {} 100000 (1/100) (by norm_num)

/-- Lookup commutes with a value-wise map of an association list. -/
theorem alookup_map_value {κ α β : Type} [DecidableEq κ] (k : κ) (f : α → β)
    (l : List (κ × α)) :
    alookup k (l.map (fun e => (e.1, f e.2))) = (alookup k l).map f := by
  induction l with
  | nil => simp [alookup]
  | cons hd tl ih =>
    obtain ⟨k', v'⟩ := hd
    by_cases h : k' = k
    · simp [alookup, h]
    · simp [alookup, h, ih]

/-- **C6.** In the summary taken right after the market-price refresh,
`positions_value` is exactly the sum of the reported per-position market
values and `total_value` is exactly `cash_balance` plus that sum. -/
theorem summary_total_value_exact (price : PriceFeed) (a : Account) :
    (getAccountSummary price a).total_value =
      (getAccountSummary price a).cash_balance +
        (getAccountSummary price a).positions_value ∧
    (getAccountSummary price a).positions_value =
      (((getAccountSummary price a).positions).map (fun e => e.2.market_value)).sum := by
  constructor
  · rfl
  · show positionsValue (updateMarketPrices price a).positions = _
    simp only [getAccountSummary, positionsValue, List.map_map]
    rfl

/-- **C10.** `get_account_summary` is total on every account state: with zero
recorded trades the reported win rate is 0 (the denominator is
`max(total_trades, 1)`), and a position whose cost basis is not positive is
reported with `unrealized_pnl_pct = 0` rather than a division error. -/
theorem summary_division_guards (price : PriceFeed) (a : Account) :
    (a.winning_trades ≤ a.total_trades → a.total_trades = 0 →
      (getAccountSummary price a).win_rate_pct = 0) ∧
    (∀ (symbol : String) (pos : Position),
      alookup symbol (updateMarketPrices price a).positions = some pos →
      pos.cost_basis ≤ 0 →
      alookup symbol (getAccountSummary price a).positions =
        some (mkPositionReport pos) ∧
      (mkPositionReport pos).unrealized_pnl_pct = 0) := by
  constructor
  · intro hle hz
    have hw : (updateMarketPrices price a).winning_trades = a.winning_trades := by
      simp [updateMarketPrices]
      split_ifs <;> rfl
    have ht : (updateMarketPrices price a).total_trades = a.total_trades := by
      simp [updateMarketPrices]
      split_ifs <;> rfl
    have hw0 : a.winning_trades = 0 := Nat.le_antisymm (hz ▸ hle) (Nat.zero_le _)
    show ((((updateMarketPrices price a).winning_trades : ℚ)) /
        (((max (updateMarketPrices price a).total_trades 1 : ℕ) : ℚ))) * 100 = 0
    rw [hw, ht, hw0, hz]
    norm_num
  · intro symbol pos hlook hcb
    constructor
    · show alookup symbol
          ((updateMarketPrices price a).positions.map (fun e => (e.1, mkPositionReport e.2))) =
        some (mkPositionReport pos)
      rw [alookup_map_value, hlook]
      rfl
    · simp only [mkPositionReport, if_neg (not_lt.mpr hcb)]

/-- Witness for C10: a fresh account holding a zero-quantity BTC position
(cost basis 0) and no trades, under a constant price feed. -/
theorem summary_division_guards_witness :
    ((getAccountSummary (fun _ => 100)
        { initialAccount 10000 (1/1000) with
            positions := [("BTC", ⟨"BTC", 0, 100, 100, 0, 0⟩)] }).win_rate_pct = 0) ∧
    (alookup "BTC"
        (getAccountSummary (fun _ => 100)
          { initialAccount 10000 (1/1000) with
              positions := [("BTC", ⟨"BTC", 0, 100, 100, 0, 0⟩)] }).positions =
      some (mkPositionReport ⟨"BTC", 0, 100, 100, 0, 0⟩) ∧
      (mkPositionReport (⟨"BTC", 0, 100, 100, 0, 0⟩ : Position)).unrealized_pnl_pct = 0) :=
  ⟨(summary_division_guards (fun _ => 100)
      { initialAccount 10000 (1/1000) with
          positions := [("BTC", ⟨"BTC", 0, 100, 100, 0, 0⟩)] }).1 (by decide) rfl,
   (summary_division_guards (fun _ => 100)
      { initialAccount 10000 (1/1000) with
          positions := [("BTC", ⟨"BTC", 0, 100, 100, 0, 0⟩)] }).2 "BTC"
      ⟨"BTC", 0, 100, 100, 0, 0⟩
      (by norm_num [updateMarketPrices, totalPortfolioValue, positionsValue,
            Position.market_value, initialAccount, alookup])
      (by norm_num [Position.cost_basis])⟩

/-- A rejected order is stored under the fresh id with status `rejected`. -/
theorem rejectWith_status (a : Account) (o : Order) (reason : String) :
    getOrderStatus (rejectWith a o reason) a.next_order_id = some OrderStatus.rejected := by
  simp [getOrderStatus, rejectWith, alookup_ainsert]

/-- **C5.** Any `place_order` call that fails the risk-limit check, the
buying-power check (buy side) or the held-quantity check (sell side) returns
normally with an order id whose stored order has status `rejected`, records a
reason, and leaves the cash balance, the positions and the trade history
unchanged. -/
theorem place_order_rejection_is_safe (price : PriceFeed) (a : Account) (symbol : String)
    (order_type : OrderType) (side : OrderSide) (quantity : ℚ) (limit_price : Option ℚ)
    (hrej :
      validateOrderRisk price a (newOrder a symbol order_type side quantity limit_price) = false
      ∨ (side = OrderSide.buy ∧
          a.cash_balance <
            estimateOrderCost price a (newOrder a symbol order_type side quantity limit_price))
      ∨ (side = OrderSide.sell ∧ insufficientPosition a symbol quantity = true)) :
    getOrderStatus (placeOrder price a symbol order_type side quantity limit_price).1
        (placeOrder price a symbol order_type side quantity limit_price).2 =
      some OrderStatus.rejected ∧
    (placeOrder price a symbol order_type side quantity limit_price).1.cash_balance =
      a.cash_balance ∧
    (placeOrder price a symbol order_type side quantity limit_price).1.positions =
      a.positions ∧
    (placeOrder price a symbol order_type side quantity limit_price).1.trade_history =
      a.trade_history ∧
    ∃ reason, (placeOrder price a symbol order_type side quantity limit_price).1.log =
      a.log ++ [reason] := by
  by_cases h1 :
      validateOrderRisk price a (newOrder a symbol order_type side quantity limit_price) = false
  · simp only [placeOrder, if_pos h1]
    exact ⟨rejectWith_status a _ _, rfl, rfl, rfl, "Order rejected due to risk limits", rfl⟩
  · by_cases h2 : side = OrderSide.buy ∧
        a.cash_balance <
          estimateOrderCost price a (newOrder a symbol order_type side quantity limit_price)
    · simp only [placeOrder, if_neg h1, if_pos h2]
      exact ⟨rejectWith_status a _ _, rfl, rfl, rfl, "Order rejected - insufficient funds", rfl⟩
    · by_cases h3 : side = OrderSide.sell ∧ insufficientPosition a symbol quantity = true
      · simp only [placeOrder, if_neg h1, if_neg h2, if_pos h3]
        exact ⟨rejectWith_status a _ _, rfl, rfl, rfl,
          "Order rejected - insufficient position", rfl⟩
      · rcases hrej with h | h | h
        · exact absurd h h1
        · exact absurd h h2
        · exact absurd h h3

/-- Witness for C5: selling BTC from a fresh account that holds no position
is rejected without touching the account state. -/
theorem place_order_rejection_is_safe_witness :
    getOrderStatus (placeOrder btcFeed (initialAccount 10000 (1/1000)) "BTC"
          OrderType.market OrderSide.sell 1 none).1
        (placeOrder btcFeed (initialAccount 10000 (1/1000)) "BTC"
          OrderType.market OrderSide.sell 1 none).2 =
      some OrderStatus.rejected ∧
    (placeOrder btcFeed (initialAccount 10000 (1/1000)) "BTC"
        OrderType.market OrderSide.sell 1 none).1.cash_balance =
      (initialAccount 10000 (1/1000)).cash_balance ∧
    (placeOrder btcFeed (initialAccount 10000 (1/1000)) "BTC"
        OrderType.market OrderSide.sell 1 none).1.positions =
      (initialAccount 10000 (1/1000)).positions ∧
    (placeOrder btcFeed (initialAccount 10000 (1/1000)) "BTC"
        OrderType.market OrderSide.sell 1 none).1.trade_history =
      (initialAccount 10000 (1/1000)).trade_history ∧
    ∃ reason, (placeOrder btcFeed (initialAccount 10000 (1/1000)) "BTC"
        OrderType.market OrderSide.sell 1 none).1.log =
      (initialAccount 10000 (1/1000)).log ++ [reason] :=
  place_order_rejection_is_safe btcFeed (initialAccount 10000 (1/1000)) "BTC"
    OrderType.market OrderSide.sell 1 none
    (Or.inr (Or.inr ⟨rfl, by simp [insufficientPosition, initialAccount, alookup]⟩))

/-- **C7 (code evaluated at the claimed scenario).** With balance 10000 and
the feed fixed at 45000 for BTC, a market buy of 0.1 BTC is REJECTED by
`_validate_order_risk` (notional 4500 exceeds `max(2%, 10%)` of the 10000
portfolio = 1000): cash stays 10000, no BTC position is opened and no trade
is recorded — contradicting the spec scenario, which expects a fill. -/
theorem btc_scenario_rejected_by_risk_check :
    getOrderStatus (placeOrder btcFeed (initialAccount 10000 (1/1000)) "BTC"
          OrderType.market OrderSide.buy (1/10) none).1
        (placeOrder btcFeed (initialAccount 10000 (1/1000)) "BTC"
          OrderType.market OrderSide.buy (1/10) none).2 =
      some OrderStatus.rejected ∧
    (placeOrder btcFeed (initialAccount 10000 (1/1000)) "BTC"
        OrderType.market OrderSide.buy (1/10) none).1.cash_balance = 10000 ∧
    alookup "BTC" (placeOrder btcFeed (initialAccount 10000 (1/1000)) "BTC"
        OrderType.market OrderSide.buy (1/10) none).1.positions = none ∧
    (placeOrder btcFeed (initialAccount 10000 (1/1000)) "BTC"
        OrderType.market OrderSide.buy (1/10) none).1.trade_history = [] := by
  have h1 : validateOrderRisk btcFeed (initialAccount 10000 (1/1000))
      (newOrder (initialAccount 10000 (1/1000)) "BTC" OrderType.market OrderSide.buy
        (1/10) none) = false := by
    simp only [validateOrderRisk, totalPortfolioValue, positionsValue, newOrder,
      initialAccount, btcFeed, decide_eq_false_iff_not]
    norm_num [max_def]
  simp only [placeOrder, if_pos h1]
  exact ⟨rejectWith_status _ _ _, rfl, rfl, rfl⟩

/-- A successful lookup exhibits a stored entry. -/
theorem alookup_mem {κ α : Type} [DecidableEq κ] {k : κ} {v : α} :
    ∀ {l : List (κ × α)}, alookup k l = some v → (k, v) ∈ l := by
  intro l
  induction l with
  | nil =>
    intro h
    simp [alookup] at h
  | cons hd tl ih =>
    intro h
    obtain ⟨k', v'⟩ := hd
    by_cases h' : k' = k
    · subst h'
      simp [alookup] at h
      subst h
      exact List.mem_cons_self _ _
    · simp only [alookup, if_neg h'] at h
      exact List.mem_cons_of_mem _ (ih h)

theorem winBump_orders (a : Account) : (winBump a).orders = a.orders := by
  unfold winBump
  cases a.trade_history.getLast? with
  | none => rfl
  | some t =>
    by_cases h : 0 < t.pnl
    · simp [h]
    · simp [h]

theorem winBump_next_order_id (a : Account) :
    (winBump a).next_order_id = a.next_order_id := by
  unfold winBump
  cases a.trade_history.getLast? with
  | none => rfl
  | some t =>
    by_cases h : 0 < t.pnl
    · simp [h]
    · simp [h]

/-- `_execute_order` either leaves the order book untouched (unknown id or
non-pending order) or fills the pending order in place; the fresh-id counter
never moves. -/
theorem executeOrder_cases (price : PriceFeed) (a : Account) (oid : ℕ) :
    ((executeOrder price a oid).orders = a.orders ∧
      (executeOrder price a oid).next_order_id = a.next_order_id) ∨
    (∃ o, alookup oid a.orders = some o ∧ o.status = OrderStatus.pending ∧
      (executeOrder price a oid).orders =
        ainsert oid
          { o with
              filled_quantity := o.quantity
              filled_price :=
                if o.order_type = OrderType.market then price o.symbol else o.price
              commission :=
                o.quantity *
                    (if o.order_type = OrderType.market then price o.symbol else o.price) *
                  a.commission_rate
              status := OrderStatus.filled } a.orders ∧
      (executeOrder price a oid).next_order_id = a.next_order_id) := by
  rcases hl : alookup oid a.orders with _ | o
  · left
    constructor <;> simp [executeOrder, hl]
  · by_cases hs : o.status = OrderStatus.pending
    · right
      refine ⟨o, rfl, hs, ?_, ?_⟩
      · by_cases hside : o.side = OrderSide.buy
        · simp [executeOrder, hl, hs, hside]
        · have hsell : o.side = OrderSide.sell := by
            cases h' : o.side
            · exact absurd h' hside
            · rfl
          simp [executeOrder, hl, hs, hsell, winBump_orders]
      · by_cases hside : o.side = OrderSide.buy
        · simp [executeOrder, hl, hs, hside]
        · have hsell : o.side = OrderSide.sell := by
            cases h' : o.side
            · exact absurd h' hside
            · rfl
          simp [executeOrder, hl, hs, hsell, winBump_next_order_id]
    · left
      constructor <;> simp [executeOrder, hl, hs]

theorem executeOrder_WF (price : PriceFeed) (a : Account) (oid : ℕ)
    (hwf : ordersWF a) : ordersWF (executeOrder price a oid) := by
  rcases executeOrder_cases price a oid with ⟨ho, hn⟩ | ⟨o, hl, _, ho, hn⟩
  · intro e he
    rw [ho] at he
    rw [hn]
    exact hwf e he
  · intro e he
    rw [ho] at he
    rw [hn]
    rcases mem_ainsert _ _ _ e he with he' | he'
    · subst he'
      obtain ⟨hid, hq, _⟩ := hwf (oid, o) (alookup_mem hl)
      exact ⟨hid, hq, le_refl _⟩
    · exact hwf e he'

/-- `_execute_order` touches no order other than the one it fills. -/
theorem executeOrder_other_orders (price : PriceFeed) (a : Account) (oid k : ℕ)
    (hne : k ≠ oid) :
    alookup k (executeOrder price a oid).orders = alookup k a.orders := by
  rcases executeOrder_cases price a oid with ⟨ho, _⟩ | ⟨o, _, _, ho, _⟩
  · rw [ho]
  · rw [ho]
    exact alookup_ainsert_ne _ _ (Ne.symm hne)

theorem placeOrder_WF (price : PriceFeed) (a : Account) (symbol : String)
    (order_type : OrderType) (side : OrderSide) (quantity : ℚ) (limit_price : Option ℚ)
    (hwf : ordersWF a) (hq : 0 ≤ quantity) :
    ordersWF (placeOrder price a symbol order_type side quantity limit_price).1 := by
  have hrejWF : ∀ reason,
      ordersWF (rejectWith a (newOrder a symbol order_type side quantity limit_price) reason) := by
    intro reason e he
    simp only [rejectWith] at he ⊢
    rcases mem_ainsert _ _ _ e he with he' | he'
    · subst he'
      exact ⟨Nat.lt_succ_self _, hq, hq⟩
    · obtain ⟨hid, hq', hf⟩ := hwf e he'
      exact ⟨Nat.lt_succ_of_lt hid, hq', hf⟩
  have hplacedWF : ordersWF { a with
      orders := ainsert a.next_order_id
        (newOrder a symbol order_type side quantity limit_price) a.orders
      next_order_id := a.next_order_id + 1
      log := a.log ++ ["Order placed"] } := by
    intro e he
    simp only at he
    rcases mem_ainsert _ _ _ e he with he' | he'
    · subst he'
      exact ⟨Nat.lt_succ_self _, hq, hq⟩
    · obtain ⟨hid, hq', hf⟩ := hwf e he'
      exact ⟨Nat.lt_succ_of_lt hid, hq', hf⟩
  dsimp only [placeOrder]
  split_ifs with h1 h2 h3 h4
  · exact hrejWF _
  · exact hrejWF _
  · exact hrejWF _
  · exact executeOrder_WF price _ _ hplacedWF
  · exact hplacedWF

/-- `place_order` never mutates an already-stored order. -/
theorem placeOrder_other_orders (price : PriceFeed) (a : Account) (symbol : String)
    (order_type : OrderType) (side : OrderSide) (quantity : ℚ) (limit_price : Option ℚ)
    (k : ℕ) (hk : k < a.next_order_id) :
    alookup k (placeOrder price a symbol order_type side quantity limit_price).1.orders =
      alookup k a.orders := by
  have hne : k ≠ a.next_order_id := Nat.ne_of_lt hk
  dsimp only [placeOrder]
  split_ifs with h1 h2 h3 h4
  · exact alookup_ainsert_ne _ _ (Ne.symm hne)
  · exact alookup_ainsert_ne _ _ (Ne.symm hne)
  · exact alookup_ainsert_ne _ _ (Ne.symm hne)
  · rw [executeOrder_other_orders _ _ _ _ hne]
    exact alookup_ainsert_ne _ _ (Ne.symm hne)
  · exact alookup_ainsert_ne _ _ (Ne.symm hne)

theorem cancelOrder_WF (a : Account) (oid : ℕ) (hwf : ordersWF a) :
    ordersWF (cancelOrder a oid).1 := by
  unfold cancelOrder
  rcases hl : alookup oid a.orders with _ | o
  · exact hwf
  · by_cases hs : o.status = OrderStatus.pending
    · simp only [hs, if_pos rfl]
      intro e he
      rcases mem_ainsert _ _ _ e he with he' | he'
      · subst he'
        obtain ⟨hid, hq, hf⟩ := hwf (oid, o) (alookup_mem hl)
        exact ⟨hid, hq, hf⟩
      · exact hwf e he'
    · simp only [if_neg hs]
      exact hwf

theorem cancelOrder_terminal_preserved (a : Account) (oid k : ℕ) (o : Order)
    (hl : alookup k a.orders = some o) (ht : o.status ≠ OrderStatus.pending) :
    alookup k (cancelOrder a oid).1.orders = some o := by
  unfold cancelOrder
  rcases hl' : alookup oid a.orders with _ | o'
  · exact hl
  · by_cases hs : o'.status = OrderStatus.pending
    · simp only [hs, if_pos rfl]
      by_cases hk : k = oid

      · subst hk
        rw [hl] at hl'
        injection hl' with hl'
        subst hl'
        exact absurd hs ht
      · simpa [alookup_ainsert_ne _ _ (Ne.symm hk)] using hl
    · simp only [if_neg hs]
      exact hl

theorem updateMarketPrices_orders (price : PriceFeed) (a : Account) :
    (updateMarketPrices price a).orders = a.orders ∧
      (updateMarketPrices price a).next_order_id = a.next_order_id := by
  constructor <;> (dsimp only [updateMarketPrices]; split_ifs <;> rfl)

/-- Every public ledger call preserves the order-book well-formedness. -/
theorem ledgerStep_WF (a : Account) (op : LedgerOp) (hwf : ordersWF a) :
    ordersWF (ledgerStep a op) := by
  cases op with
  | placeOp price symbol order_type side quantity limit_price =>
    dsimp only [ledgerStep]
    split_ifs with hbad
    · exact hwf
    · push_neg at hbad
      exact placeOrder_WF price a symbol order_type side quantity limit_price hwf hbad.1
  | cancelOp oid => exact cancelOrder_WF a oid hwf
  | updateOp price =>
    dsimp only [ledgerStep]
    intro e he
    rw [(updateMarketPrices_orders price a).1] at he
    rw [(updateMarketPrices_orders price a).2]
    exact hwf e he

/-- No public ledger call mutates an order whose status is terminal. -/
theorem ledgerStep_terminal_preserved (a : Account) (op : LedgerOp) (oid : ℕ) (o : Order)
    (hwf : ordersWF a) (hl : alookup oid a.orders = some o)
    (ht : o.status ≠ OrderStatus.pending) :
    alookup oid (ledgerStep a op).orders = some o := by
  cases op with
  | placeOp price symbol order_type side quantity limit_price =>
    dsimp only [ledgerStep]
    split_ifs with hbad
    · exact hl
    · rw [placeOrder_other_orders price a symbol order_type side quantity limit_price oid
        (hwf (oid, o) (alookup_mem hl)).1]
      exact hl
  | cancelOp k => exact cancelOrder_terminal_preserved a k oid o hl ht
  | updateOp price =>
    dsimp only [ledgerStep]
    rw [(updateMarketPrices_orders price a).1]
    exact hl

theorem foldl_ledgerStep_WF (ops : List LedgerOp) :
    ∀ (a : Account), ordersWF a → ordersWF (ops.foldl ledgerStep a) := by
  induction ops with
  | nil => intro a h; simpa using h
  | cons op rest ih =>
    intro a h
    simp only [List.foldl_cons]
    exact ih _ (ledgerStep_WF a op h)

/-- **C8.** Over every sequence of public ledger operations:
`filled_quantity ≤ quantity` always holds; an order whose status is terminal
(`filled`, `cancelled` or `rejected` — anything but `pending`) is never
changed again; and `cancel_order` returns `True` and cancels exactly when the
order exists with status `pending`, returning `False` with no state change
for unknown ids or non-pending orders. -/
theorem order_book_invariants :
    (∀ (a : Account) (op : LedgerOp), ordersWF a → ordersWF (ledgerStep a op))
    ∧
    (∀ (a : Account) (op : LedgerOp) (oid : ℕ) (o : Order), ordersWF a →
        alookup oid a.orders = some o → o.status ≠ OrderStatus.pending →
        alookup oid (ledgerStep a op).orders = some o)
    ∧
    (∀ (a : Account) (oid : ℕ),
        (∀ o, alookup oid a.orders = some o → o.status = OrderStatus.pending →
          (cancelOrder a oid).2 = true ∧
          getOrderStatus (cancelOrder a oid).1 oid = some OrderStatus.cancelled) ∧
        ((alookup oid a.orders = none ∨
            (∃ o, alookup oid a.orders = some o ∧ o.status ≠ OrderStatus.pending)) →
          cancelOrder a oid = (a, false)))
    ∧
    (∀ (initial_balance commission_rate : ℚ) (ops : List LedgerOp),
        ∀ e ∈ (ops.foldl ledgerStep (initialAccount initial_balance commission_rate)).orders,
          e.2.filled_quantity ≤ e.2.quantity) := by
  refine ⟨ledgerStep_WF, ledgerStep_terminal_preserved, ?_, ?_⟩
  · intro a oid
    constructor
    · intro o hl hs
      constructor
      · simp [cancelOrder, hl, hs]
      · simp [cancelOrder, hl, hs, getOrderStatus, alookup_ainsert]
    · intro h
      rcases h with hnone | ⟨o, hl, ht⟩
      · simp [cancelOrder, hnone]
      · simp [cancelOrder, hl, ht]
  · intro initial_balance commission_rate ops e he
    have hinit : ordersWF (initialAccount initial_balance commission_rate) := by
      intro e' he'
      simp [initialAccount] at he'
    exact (foldl_ledgerStep_WF ops _ hinit e he).2.2

/-- Witness for C8 on concrete accounts: one holding a rejected order (id 0),
one holding a pending order, and a fresh account driven by one cancel op. -/
theorem order_book_invariants_witness :
    ordersWF (ledgerStep
      { initialAccount 10000 (1/1000) with
          orders := [(0, { order_id := 0, symbol := "BTC", quantity := 1,
                           status := OrderStatus.rejected })]
          next_order_id := 1 } (LedgerOp.cancelOp 0)) ∧
    alookup 0 (ledgerStep
        { initialAccount 10000 (1/1000) with
            orders := [(0, { order_id := 0, symbol := "BTC", quantity := 1,
                             status := OrderStatus.rejected })]
            next_order_id := 1 } (LedgerOp.cancelOp 0)).orders =
      some { order_id := 0, symbol := "BTC", quantity := 1,
             status := OrderStatus.rejected } ∧
    ((cancelOrder
        { initialAccount 10000 (1/1000) with
            orders := [(0, { order_id := 0, symbol := "BTC", quantity := 1,
                             status := OrderStatus.pending })]
            next_order_id := 1 } 0).2 = true ∧
      getOrderStatus (cancelOrder
        { initialAccount 10000 (1/1000) with
            orders := [(0, { order_id := 0, symbol := "BTC", quantity := 1,
                             status := OrderStatus.pending })]
            next_order_id := 1 } 0).1 0 = some OrderStatus.cancelled) ∧
    cancelOrder (initialAccount 10000 (1/1000)) 0 = (initialAccount 10000 (1/1000), false) ∧
    (∀ e ∈ (([LedgerOp.cancelOp 5]).foldl ledgerStep
        (initialAccount 10000 (1/1000))).orders,
      e.2.filled_quantity ≤ e.2.quantity) :=
  ⟨order_book_invariants.1
      { initialAccount 10000 (1/1000) with
          orders := [(0, { order_id := 0, symbol := "BTC", quantity := 1,
                           status := OrderStatus.rejected })]
          next_order_id := 1 } (LedgerOp.cancelOp 0)
      (by unfold ordersWF; decide),
   order_book_invariants.2.1
      { initialAccount 10000 (1/1000) with
          orders := [(0, { order_id := 0, symbol := "BTC", quantity := 1,
                           status := OrderStatus.rejected })]
          next_order_id := 1 } (LedgerOp.cancelOp 0) 0
      { order_id := 0, symbol := "BTC", quantity := 1, status := OrderStatus.rejected }
      (by unfold ordersWF; decide) (by decide) (by decide),
   (order_book_invariants.2.2.1
      { initialAccount 10000 (1/1000) with
          orders := [(0, { order_id := 0, symbol := "BTC", quantity := 1,
                           status := OrderStatus.pending })]
          next_order_id := 1 } 0).1
      { order_id := 0, symbol := "BTC", quantity := 1, status := OrderStatus.pending }
      (by decide) (by decide),
   (order_book_invariants.2.2.1 (initialAccount 10000 (1/1000)) 0).2 (Or.inl rfl),
   order_book_invariants.2.2.2 10000 (1/1000) [LedgerOp.cancelOp 5]⟩

theorem runHandlers_outputs (hs : List HandlerBehaviour) (alert : Alert) :
    (runHandlers hs alert).1 = (hs.map (fun h => h.outputs alert)).flatten := by
  induction hs with
  | nil => simp [runHandlers]
  | cons h rest ih => simp [runHandlers, ih]

theorem runHandlers_errors (hs : List HandlerBehaviour) (alert : Alert) :
    (runHandlers hs alert).2.length = (hs.filter (fun h => h.raises alert)).length := by
  induction hs with
  | nil => simp [runHandlers]
  | cons h rest ih =>
    by_cases hr : h.raises alert
    · simp [runHandlers, hr, ih]
    · simp [runHandlers, hr, ih]

/-- **C9.** Dispatching one alert invokes every registered handler with that
same alert in registration order — the output trace is exactly the
concatenation of the individual handlers' outputs — and a raising handler is
caught and logged (one error-log entry per raising handler) without blocking
any later handler.  Registration is append-only: a newly added handler is
invoked after all previously registered ones. -/
theorem alert_dispatch_in_order_isolated :
    (∀ (hs : List HandlerBehaviour) (alert : Alert),
        (runHandlers hs alert).1 = (hs.map (fun h => h.outputs alert)).flatten ∧
        (runHandlers hs alert).2.length =
          (hs.filter (fun h => h.raises alert)).length)
    ∧
    (∀ (m : Monitor) (h : HandlerBehaviour) (alert : Alert),
        (add_alert_handler m h).alert_handlers = m.alert_handlers ++ [h] ∧
        (runHandlers (add_alert_handler m h).alert_handlers alert).1 =
          (runHandlers m.alert_handlers alert).1 ++ h.outputs alert) := by
  refine ⟨fun hs alert => ⟨runHandlers_outputs hs alert, runHandlers_errors hs alert⟩,
    fun m h alert => ⟨rfl, ?_⟩⟩
  rw [runHandlers_outputs, runHandlers_outputs]
  simp [add_alert_handler]

end PT
